import Mathlib

/-!
# Verification of the AudioToolkit loudness-normalization core

Shallow embedding of `src/audio_normalizer.py` (class `NormalizationWorker`
and the configuration validation of `NormalizationApp.start_normalization`),
with theorems settling the specification claims about it.

Modelling conventions:
* Python floats that only ever carry finite values in the properties at stake
  are modelled as `ℚ` (exact real arithmetic).
* The loudness values flowing through `normalize_audio` can be the IEEE-754
  special values `-inf` / `+inf` / `NaN` (pyloudnorm returns `-inf` for a
  fully gated/silent buffer), so the dB-domain gain computation is modelled
  over an extended-value type `FVal` with IEEE-754 arithmetic and comparison
  semantics on those special values.
* `numpy` integer→float conversion is division; float→integer conversion via
  `.astype(intN)` is C truncation toward zero, modelled by `truncToZero`.
* The linear gain factor `10 ** ((target - loudness) / 20)` computed inside
  `pyln.normalize.loudness` is irrational in general; the sample-domain part
  of `normalize_audio` is therefore parameterised by the linear factor
  `gainLinear : ℚ` (standing for whatever value that power evaluates to),
  while the dB-domain computation that produces the exponent is modelled
  separately and exactly by `normalize_audio_gain`.
-/

namespace AudioToolkit

/-- A decoded PCM buffer, mirroring the fields of `pydub.AudioSegment` that
`NormalizationWorker` reads: the interleaved integer samples
(`get_array_of_samples`), `sample_width` in bytes, `frame_rate`, `channels`.

For `channels > 1` the source reshapes the flat array to `(-1, channels)`
(row-major, so row = frame, column = channel) and, after quantization,
re-interleaves column `i` back into positions `i, i+channels, …`
(lines 175-182); this restores exactly the original flat interleaved order,
so the buffer is modelled by its flat sample list throughout. -/
structure AudioSegment where
  samples : List ℤ
  sample_width : ℕ
  frame_rate : ℕ
  channels : ℕ
deriving DecidableEq, Repr

/-- Extended value of a Python float: finite, `+inf`, `-inf` or `NaN`. -/
inductive FVal where
  | fin (q : ℚ)
  | pinf
  | ninf
  | nan
deriving DecidableEq, Repr

namespace FVal

/-- IEEE-754 subtraction on extended values. -/
def sub : FVal → FVal → FVal
  | nan, _ => nan
  | _, nan => nan
  | fin a, fin b => fin (a - b)
  | fin _, pinf => ninf
  | fin _, ninf => pinf
  | pinf, fin _ => pinf
  | ninf, fin _ => ninf
  | pinf, ninf => pinf
  | ninf, pinf => ninf
  | pinf, pinf => nan
  | ninf, ninf => nan

/-- IEEE-754 addition on extended values. -/
def add : FVal → FVal → FVal
  | nan, _ => nan
  | _, nan => nan
  | fin a, fin b => fin (a + b)
  | fin _, pinf => pinf
  | fin _, ninf => ninf
  | pinf, fin _ => pinf
  | ninf, fin _ => ninf
  | pinf, pinf => pinf
  | ninf, ninf => ninf
  | pinf, ninf => nan
  | ninf, pinf => nan

/-- IEEE-754 strict greater-than on extended values: any comparison with
`NaN` is false. -/
def gt : FVal → FVal → Bool
  | nan, _ => false
  | _, nan => false
  | fin a, fin b => decide (b < a)
  | fin _, pinf => false
  | fin _, ninf => true
  | pinf, fin _ => true
  | ninf, fin _ => false
  | pinf, pinf => false
  | pinf, ninf => true
  | ninf, pinf => false
  | ninf, ninf => false

end FVal

/-- The dB-domain gain computation of `NormalizationWorker.normalize_audio`
(src/audio_normalizer.py lines 150-160):

    gain_needed = target_loudness - loudness
    if gain_needed > max_gain_increase:
        target_loudness = loudness + max_gain_increase
    loudness_normalized = pyln.normalize.loudness(samples, loudness, target_loudness)

`pyln.normalize.loudness` multiplies the samples by
`10 ** ((target_loudness - loudness) / 20)`, i.e. it applies the dB gain
`target_loudness - loudness` for the (possibly clamped) target.  The result
is that applied dB gain together with the clamp flag (`true` exactly when
the warning "Limiting gain increase …" is emitted). -/
def normalize_audio_gain (loudness target_loudness max_gain_increase : FVal) :
    FVal × Bool :=
  let gain_needed := target_loudness.sub loudness
  if gain_needed.gt max_gain_increase then
    ((loudness.add max_gain_increase).sub loudness, true)
  else
    (gain_needed, false)

/-- Full-scale divisor used by `audiosegment_to_numpy` (line 142):
`max_val = float(2 ** (8 * sample_width - 1))`.  (For `sample_width = 0`
Python would compute `2 ** (-1) = 0.5` while natural subtraction gives
`2 ** 0 = 1`; no supported width and no claim touches that case, and for
unsupported widths the converted samples are discarded unused.) -/
def fullScale (sample_width : ℕ) : ℚ := (2 : ℚ) ^ (8 * sample_width - 1)

/-- `NormalizationWorker.audiosegment_to_numpy` (lines 139-146): scale the
integer samples to floats by dividing by the full-scale value, and return
them with the frame rate.  The `reshape((-1, channels))` only changes the
array shape, not the flat sample order (see `AudioSegment`). -/
def audiosegment_to_numpy (audio_segment : AudioSegment) : List ℚ × ℕ :=
  (audio_segment.samples.map
      (fun (s : ℤ) => (s : ℚ) / fullScale audio_segment.sample_width),
    audio_segment.frame_rate)

/-- `np.clip(x, -1.0, 1.0)` on one sample (line 161). -/
def clipSample (x : ℚ) : ℚ := min 1 (max (-1) x)

/-- `numpy` float→integer cast (`.astype(dtype)`, line 173): C truncation
toward zero. -/
def truncToZero (q : ℚ) : ℤ := if 0 ≤ q then ⌊q⌋ else ⌈q⌉

/-- The sample-width → dtype table (line 164) succeeds exactly on widths
1, 2, 3, 4 bytes. -/
def supportedWidth (sample_width : ℕ) : Bool :=
  sample_width == 1 || sample_width == 2 || sample_width == 3 ||
    sample_width == 4

/-- The sample-domain part of `NormalizationWorker.normalize_audio`
(lines 148-190), parameterised by the linear gain factor `gainLinear`
that `pyln.normalize.loudness` multiplies the samples by
(`10 ** (applied_dB_gain / 20)`, the dB gain being
`(normalize_audio_gain …).1`; for a finite measured loudness this factor
is a positive real number):

* convert to floats (`audiosegment_to_numpy`),
* multiply every sample by the linear gain (`pyln.normalize.loudness`),
* hard-clip to `[-1, 1]` (`np.clip`, line 161),
* if the sample width is unsupported, return the original segment
  unchanged (lines 166-170),
* otherwise quantize: multiply by `2 ** (8*width-1) - 1` and cast
  (truncate) to the integer dtype (lines 172-173),
* re-interleave (identity on the flat order, lines 175-182) and rebuild an
  `AudioSegment` with the same frame rate, sample width and channel count
  (lines 184-189). -/
def normalize_audio (audio_segment : AudioSegment) (gainLinear : ℚ) :
    AudioSegment :=
  let conv := audiosegment_to_numpy audio_segment
  let samples := conv.1
  let rate := conv.2
  let loudness_normalized := samples.map (fun x => gainLinear * x)
  let normalized_samples := loudness_normalized.map clipSample
  let sample_width := audio_segment.sample_width
  if supportedWidth sample_width then
    let max_val : ℚ := fullScale sample_width - 1
    let int_samples := normalized_samples.map (fun x => truncToZero (x * max_val))
    { samples := int_samples
      sample_width := sample_width
      frame_rate := rate
      channels := audio_segment.channels }
  else
    audio_segment

/-- Per-file outcome of the batch loop (the spec's `FileOutcome`; the source
only logs these, it does not build a list, so the constructors name the
distinct control paths in `NormalizationWorker.run`):
`Normalized` = the full decode→normalize→save→metadata-copy path,
`SkippedExisting` = output existed with complete metadata (lines 69-73),
`SkippedMetadataCopied` = output existed, metadata copied (lines 63-68),
`Error` = `load_audio` returned `None` and the loop `continue`d
(lines 81-83). -/
inductive FileOutcome where
  | Normalized
  | SkippedExisting
  | SkippedMetadataCopied
  | Error
deriving DecidableEq, Repr

/-- Observable actions of the batch loop on file number `i` (0-based
discovery index), used to state which stages run for which file. -/
inductive Event where
  | decodeTry (i : ℕ)
  | saved (i : ℕ) (seg : AudioSegment)
  | metaCopied (i : ℕ)
deriving DecidableEq, Repr

/-- Environment of one execution of `NormalizationWorker.run`, abstracting
the external collaborators, indexed by the 0-based discovery index of each
file:

* `outputExists i` — `os.path.exists(output_path)` for file `i` (line 58);
* `metadataComplete i` — `check_metadata(output_path)` for file `i`
  (lines 63, 214-217: all of tracktitle/artist/album non-empty);
* `decode i` — result of `load_audio` (lines 81, 129-137): the decoded
  segment, or `none` on a decode error;
* `gainOf i` — the linear gain factor `10 ** (dB/20)` that
  `pyln.normalize.loudness` applies to file `i`'s samples (determined by
  the measured loudness and the target, see `normalize_audio_gain`);
* `stopFlag i` — the value of `not self.is_running` observed by the check
  at the top of iteration `i` (lines 52-53); `stop()` (lines 245-246) only
  ever sets `is_running` to `False`, so the flag is monotone `false→true`
  across checks. -/
structure RunEnv where
  outputExists : ℕ → Bool
  metadataComplete : ℕ → Bool
  decode : ℕ → Option AudioSegment
  gainOf : ℕ → ℚ
  stopFlag : ℕ → Bool

/-- The body of one iteration of the loop in `NormalizationWorker.run`
(lines 54-111), after the stop-flag check: either the output-exists skip
path (lines 58-73) or the decode→normalize→save→metadata-copy path
(lines 81-102).  Returns the file's outcome and the actions performed. -/
def processFile (env : RunEnv) (i : ℕ) : FileOutcome × List Event :=
  if env.outputExists i then
    if env.metadataComplete i then
      (FileOutcome.SkippedExisting, [])
    else
      (FileOutcome.SkippedMetadataCopied, [Event.metaCopied i])
  else
    match env.decode i with
    | none => (FileOutcome.Error, [Event.decodeTry i])
    | some audio =>
        (FileOutcome.Normalized,
          [Event.decodeTry i,
           Event.saved i (normalize_audio audio (env.gainOf i)),
           Event.metaCopied i])

/-- The `for idx, file_path in enumerate(audio_files)` loop of
`NormalizationWorker.run` (lines 51-111) over the files with the given
discovery indices: check the stop flag, `break` if set, otherwise process
the file and continue.  Returns the outcomes and the concatenated action
trace. -/
def runLoop (env : RunEnv) : List ℕ → List FileOutcome × List Event
  | [] => ([], [])
  | i :: rest =>
      if env.stopFlag i then
        ([], [])
      else
        let r := processFile env i
        let rs := runLoop env rest
        (r.1 :: rs.1, r.2 ++ rs.2)

/-- A whole run of the worker over `n` discovered files. -/
def runWorker (env : RunEnv) (n : ℕ) : List FileOutcome × List Event :=
  runLoop env (List.range n)

/-- Result of `NormalizationApp.start_normalization`: either the
configuration is rejected with a `QMessageBox` warning and an early
`return` (no worker thread is created), or a `NormalizationWorker` is
constructed with the validated configuration and started. -/
inductive StartResult where
  | rejected
  | started (input_folder output_folder : String) (target_loudness : ℚ)
deriving DecidableEq, Repr

/-- `NormalizationApp.start_normalization` (lines 316-355), with the file
system abstracted by `isdir` (`os.path.isdir`) and Python's
`float(target_loudness_str)` abstracted by its result
`target_parsed : Option ℚ` (`none` when it raises `ValueError`):

* reject when the input folder field is empty or not a directory
  (line 321);
* reject when the output folder field is empty or not a directory
  (line 326);
* reject when the target string does not parse (lines 337-340);
* reject when the parsed target is outside `[-60, 0]` (lines 333-336);
* otherwise construct and start the worker (lines 349-353). -/
def start_normalization (isdir : String → Bool)
    (input_folder output_folder : String) (target_parsed : Option ℚ) :
    StartResult :=
  if input_folder = "" ∨ ¬ isdir input_folder then
    StartResult.rejected
  else if output_folder = "" ∨ ¬ isdir output_folder then
    StartResult.rejected
  else
    match target_parsed with
    | none => StartResult.rejected
    | some target_loudness =>
        if ¬ (-60 ≤ target_loudness ∧ target_loudness ≤ 0) then
          StartResult.rejected
        else
          StartResult.started input_folder output_folder target_loudness

/-! ## Helper lemmas -/

/-- On finite inputs, the gain computation applies `min (T - L) M` dB and
sets the clamp flag exactly when `T - L` exceeds `M`. -/
lemma normalize_audio_gain_fin (L T M : ℚ) :
    normalize_audio_gain (.fin L) (.fin T) (.fin M) =
      (.fin (min (T - L) M), decide (M < T - L)) := by
  unfold normalize_audio_gain
  simp only [FVal.sub, FVal.add, FVal.gt]
  by_cases h : M < T - L
  · have hM : L + M - L = M := by ring
    simp [h, hM, min_eq_right h.le]
  · have h' : T - L ≤ M := not_lt.mp h
    simp [h, min_eq_left h']

/-- The hard clip keeps every sample in `[-1, 1]`. -/
lemma clipSample_bounds (x : ℚ) : -1 ≤ clipSample x ∧ clipSample x ≤ 1 :=
  ⟨le_min (by norm_num) (le_max_left _ _), min_le_left _ _⟩

/-- The hard clip is the identity on samples already in `[-1, 1]`. -/
lemma clipSample_eq_self {x : ℚ} (h1 : -1 ≤ x) (h2 : x ≤ 1) :
    clipSample x = x := by
  unfold clipSample
  rw [max_eq_right h1, min_eq_right h2]

/-- Truncation toward zero of a value in `[-m, m]` stays in `[-m, m]`. -/
lemma truncToZero_bounds (q : ℚ) (m : ℤ) (hm : 0 ≤ m)
    (hlo : -(m : ℚ) ≤ q) (hhi : q ≤ (m : ℚ)) :
    -m ≤ truncToZero q ∧ truncToZero q ≤ m := by
  unfold truncToZero
  split
  · rename_i h
    refine ⟨le_trans (by omega) (Int.floor_nonneg.mpr h), ?_⟩
    calc ⌊q⌋ ≤ ⌊(m : ℚ)⌋ := Int.floor_le_floor hhi
      _ = m := Int.floor_intCast m
  · rename_i h
    push_neg at h
    constructor
    · calc -m = ⌈((-m : ℤ) : ℚ)⌉ := (Int.ceil_intCast _).symm
        _ ≤ ⌈q⌉ := Int.ceil_le_ceil (by push_cast; linarith)
    · exact le_trans (Int.ceil_le.mpr (by exact_mod_cast h.le)) hm

/-- One 16-bit sample survives the int→float→int round trip of
`audiosegment_to_numpy` followed by the quantization of `normalize_audio`
at unit linear gain to within one least-significant bit. -/
lemma roundtrip16_sample (s : ℤ) (hlo : -32768 ≤ s) (hhi : s ≤ 32767) :
    |truncToZero (clipSample (1 * ((s : ℚ) / 32768)) * 32767) - s| ≤ 1 := by
  have hsQlo : (-32768 : ℚ) ≤ (s : ℚ) := by exact_mod_cast hlo
  have hsQhi : (s : ℚ) ≤ 32767 := by exact_mod_cast hhi
  have hx1 : (-1 : ℚ) ≤ (s : ℚ) / 32768 := by
    rw [le_div_iff₀ (by norm_num : (0 : ℚ) < 32768)]
    linarith
  have hx2 : (s : ℚ) / 32768 ≤ 1 := by
    rw [div_le_one₀ (by norm_num : (0 : ℚ) < 32768)]
    linarith
  rw [one_mul, clipSample_eq_self hx1 hx2, div_mul_eq_mul_div]
  by_cases hs : 0 ≤ s
  · have hsQ : (0 : ℚ) ≤ (s : ℚ) := by exact_mod_cast hs
    have hq0 : 0 ≤ (s : ℚ) * 32767 / 32768 := by positivity
    have ht : truncToZero ((s : ℚ) * 32767 / 32768) =
        ⌊(s : ℚ) * 32767 / 32768⌋ := by
      unfold truncToZero
      rw [if_pos hq0]
    have h1 : ⌊(s : ℚ) * 32767 / 32768⌋ ≤ s := by
      calc ⌊(s : ℚ) * 32767 / 32768⌋ ≤ ⌊(s : ℚ)⌋ := by
            refine Int.floor_le_floor ?_
            rw [div_le_iff₀ (by norm_num : (0 : ℚ) < 32768)]
            linarith
        _ = s := Int.floor_intCast s
    have h2 : s - 1 ≤ ⌊(s : ℚ) * 32767 / 32768⌋ := by
      rw [Int.le_floor]
      push_cast
      rw [le_div_iff₀ (by norm_num : (0 : ℚ) < 32768)]
      linarith
    rw [ht, abs_le]
    omega
  · push_neg at hs
    have hsQ : (s : ℚ) < 0 := by exact_mod_cast hs
    have hqneg : (s : ℚ) * 32767 / 32768 < 0 :=
      div_neg_of_neg_of_pos (by nlinarith) (by norm_num)
    have ht : truncToZero ((s : ℚ) * 32767 / 32768) =
        ⌈(s : ℚ) * 32767 / 32768⌉ := by
      unfold truncToZero
      rw [if_neg (not_le.mpr hqneg)]
    have h1 : s ≤ ⌈(s : ℚ) * 32767 / 32768⌉ := by
      calc s = ⌈((s : ℤ) : ℚ)⌉ := (Int.ceil_intCast s).symm
        _ ≤ ⌈(s : ℚ) * 32767 / 32768⌉ := by
            refine Int.ceil_le_ceil ?_
            rw [le_div_iff₀ (by norm_num : (0 : ℚ) < 32768)]
            linarith
    have h2 : ⌈(s : ℚ) * 32767 / 32768⌉ ≤ s + 1 := by
      rw [Int.ceil_le]
      push_cast
      rw [div_le_iff₀ (by norm_num : (0 : ℚ) < 32768)]
      linarith
    rw [ht, abs_le]
    omega

/-! ## Claims about the gain calculator -/

/-- C1: for finite measured loudness `L`, target `T` and `max_gain_increase`
`M`, the dB gain applied by `normalize_audio` is `T - L` (no clamp flag)
when `T - L ≤ M`, and exactly `M` with the clamp warning when `T - L > M`;
in particular at `L = -40`, `T = -7`, `M = 6` the applied gain is exactly
`+6` dB and the clamp warning is raised. -/
theorem normalize_audio_gain_clamp (L T M : ℚ) :
    (T - L ≤ M →
      normalize_audio_gain (.fin L) (.fin T) (.fin M) = (.fin (T - L), false)) ∧
    (T - L > M →
      normalize_audio_gain (.fin L) (.fin T) (.fin M) = (.fin M, true)) ∧
    normalize_audio_gain (.fin (-40)) (.fin (-7)) (.fin 6) = (.fin 6, true) := by
  refine ⟨fun h => ?_, fun h => ?_,
    by rw [normalize_audio_gain_fin]; norm_num⟩
  · rw [normalize_audio_gain_fin, min_eq_left h]
    simp [not_lt.mpr h]
  · rw [normalize_audio_gain_fin, min_eq_right h.le]
    simp [h]

/-- C2 (divergence witness): on the silence sentinel `-inf`, the gain
computation of `normalize_audio` does not force the gain to `0`: the clamp
branch fires (`target - (-inf) = +inf > 6`), the clamped target
`-inf + 6 = -inf` makes the applied dB gain `(-inf) - (-inf) = NaN`, which
is not the `0` dB pass-through the specification requires. -/
theorem normalize_audio_gain_silence_nan :
    normalize_audio_gain .ninf (.fin (-7)) (.fin 6) = (.nan, true) ∧
      FVal.nan ≠ FVal.fin 0 := by
  exact ⟨by decide, by decide⟩

/-- C7: gain monotonicity — for finite loudness values `L1 < L2` normalized
to the same target with the same `max_gain_increase`, the dB gain applied
to the quieter buffer is at least the dB gain applied to the louder one. -/
theorem normalize_audio_gain_monotone (L1 L2 T M : ℚ) (h : L1 < L2)
    (g1 g2 : ℚ)
    (h1 : (normalize_audio_gain (.fin L1) (.fin T) (.fin M)).1 = .fin g1)
    (h2 : (normalize_audio_gain (.fin L2) (.fin T) (.fin M)).1 = .fin g2) :
    g2 ≤ g1 := by
  rw [normalize_audio_gain_fin] at h1 h2
  simp only [FVal.fin.injEq] at h1 h2
  subst h1 h2
  exact min_le_min (by linarith) le_rfl

/-- C7 witness: at `L1 = -40`, `L2 = -10`, `T = -7`, `M = 6` the applied
gains are `6` and `3` dB, and indeed `3 ≤ 6`. -/
theorem normalize_audio_gain_monotone_witness :
    ((-40 : ℚ) < -10) ∧ ((3 : ℚ) ≤ 6) :=
  ⟨by norm_num,
    normalize_audio_gain_monotone (-40) (-10) (-7) 6 (by norm_num) 6 3
      (by rw [normalize_audio_gain_fin]; norm_num)
      (by rw [normalize_audio_gain_fin]; norm_num)⟩

/-! ## Claims about the sample pipeline -/

/-- C3: for a 16-bit buffer, the integer→float conversion of
`audiosegment_to_numpy` followed by the float→integer quantization of
`normalize_audio` at zero applied gain (linear factor `1`) maps every
sample value in `[-32768, 32767]` to an integer within `±1` of it. -/
theorem normalize_audio_roundtrip_16bit (seg : AudioSegment)
    (hw : seg.sample_width = 2) :
    ∃ f : ℤ → ℤ,
      (normalize_audio seg 1).samples = seg.samples.map f ∧
      ∀ s : ℤ, -32768 ≤ s → s ≤ 32767 → |f s - s| ≤ 1 := by
  refine ⟨fun s => truncToZero (clipSample (1 * ((s : ℚ) / 32768)) * 32767),
    ?_, fun s h1 h2 => roundtrip16_sample s h1 h2⟩
  have hsup : supportedWidth 2 = true := rfl
  simp only [normalize_audio, audiosegment_to_numpy, hw, hsup, if_true,
    List.map_map]
  congr 1
  funext s
  norm_num [fullScale, Function.comp_def]

/-- C3 witness: the concrete 16-bit buffer `[32767, -32768, -1, 1, 0]`. -/
theorem normalize_audio_roundtrip_16bit_witness :
    ∃ f : ℤ → ℤ,
      (normalize_audio ⟨[32767, -32768, -1, 1, 0], 2, 44100, 1⟩ 1).samples =
        ([32767, -32768, -1, 1, 0] : List ℤ).map f ∧
      ∀ s : ℤ, -32768 ≤ s → s ≤ 32767 → |f s - s| ≤ 1 :=
  normalize_audio_roundtrip_16bit ⟨[32767, -32768, -1, 1, 0], 2, 44100, 1⟩ rfl

/-- C4: on a buffer whose sample width is not 1, 2, 3 or 4 bytes, the
dtype lookup of `normalize_audio` fails and the buffer is passed through
unmodified; in the batch loop the file still completes (the unmodified
segment is what gets saved) and the batch continues with the next file. -/
theorem normalize_audio_unsupported_width (env : RunEnv) (i : ℕ)
    (rest : List ℕ) (seg : AudioSegment)
    (hstop : env.stopFlag i = false) (hout : env.outputExists i = false)
    (hdec : env.decode i = some seg)
    (hw : seg.sample_width ∉ ({1, 2, 3, 4} : Set ℕ)) :
    normalize_audio seg (env.gainOf i) = seg ∧
    (runLoop env (i :: rest)).1 =
      FileOutcome.Normalized :: (runLoop env rest).1 ∧
    Event.saved i seg ∈ (runLoop env (i :: rest)).2 := by
  simp only [Set.mem_insert_iff, Set.mem_singleton_iff, not_or] at hw
  obtain ⟨h1, h2, h3, h4⟩ := hw
  have hsup : supportedWidth seg.sample_width = false := by
    simp [supportedWidth, h1, h2, h3, h4]
  have hpass : normalize_audio seg (env.gainOf i) = seg := by
    simp [normalize_audio, hsup]
  refine ⟨hpass, ?_, ?_⟩
  · simp [runLoop, hstop, processFile, hout, hdec]
  · simp [runLoop, hstop, processFile, hout, hdec, hpass]

/-- C4 witness: a 5-byte-wide buffer in a batch of one file. -/
theorem normalize_audio_unsupported_width_witness :
    normalize_audio ⟨[7, -7], 5, 44100, 1⟩
        (RunEnv.gainOf ⟨fun _ => false, fun _ => false,
          fun _ => some ⟨[7, -7], 5, 44100, 1⟩, fun _ => 1, fun _ => false⟩ 0) =
      ⟨[7, -7], 5, 44100, 1⟩ ∧
    (runLoop ⟨fun _ => false, fun _ => false,
        fun _ => some ⟨[7, -7], 5, 44100, 1⟩, fun _ => 1, fun _ => false⟩
        (0 :: [])).1 =
      FileOutcome.Normalized ::
        (runLoop ⟨fun _ => false, fun _ => false,
          fun _ => some ⟨[7, -7], 5, 44100, 1⟩, fun _ => 1, fun _ => false⟩
          []).1 ∧
    Event.saved 0 ⟨[7, -7], 5, 44100, 1⟩ ∈
      (runLoop ⟨fun _ => false, fun _ => false,
        fun _ => some ⟨[7, -7], 5, 44100, 1⟩, fun _ => 1, fun _ => false⟩
        (0 :: [])).2 :=
  normalize_audio_unsupported_width
    ⟨fun _ => false, fun _ => false, fun _ => some ⟨[7, -7], 5, 44100, 1⟩,
      fun _ => 1, fun _ => false⟩
    0 [] ⟨[7, -7], 5, 44100, 1⟩ rfl rfl rfl (by norm_num)

/-- C5: for any linear gain (in particular the one any finite measured
loudness produces), every hard-clipped float sample lies in `[-1, 1]`, and
consequently every quantized integer sample of the segment built by
`normalize_audio` for a supported sample width lies within the
representable range `[-2^(8w-1), 2^(8w-1) - 1]` of the origin width. -/
theorem normalize_audio_output_in_range (seg : AudioSegment)
    (gainLinear : ℚ) (hw : supportedWidth seg.sample_width = true) :
    (∀ x : ℚ, -1 ≤ clipSample x ∧ clipSample x ≤ 1) ∧
    ∀ z ∈ (normalize_audio seg gainLinear).samples,
      -(2 ^ (8 * seg.sample_width - 1)) ≤ z ∧
        z ≤ 2 ^ (8 * seg.sample_width - 1) - 1 := by
  refine ⟨clipSample_bounds, ?_⟩
  intro z hz
  simp only [normalize_audio, audiosegment_to_numpy, hw, if_true,
    List.map_map, List.mem_map, Function.comp_def] at hz
  obtain ⟨s, _, rfl⟩ := hz
  set K : ℕ := 8 * seg.sample_width - 1 with hK
  have hpow : (1 : ℤ) ≤ 2 ^ K := by
    have := pow_pos (show (0 : ℤ) < 2 by norm_num) K
    omega
  have hcast : ((2 ^ K - 1 : ℤ) : ℚ) = fullScale seg.sample_width - 1 := by
    rw [fullScale, ← hK]
    push_cast
    ring
  obtain ⟨hc1, hc2⟩ :=
    clipSample_bounds (gainLinear * ((s : ℚ) / fullScale seg.sample_width))
  have hmQ : (0 : ℚ) ≤ fullScale seg.sample_width - 1 := by
    rw [← hcast]
    exact_mod_cast sub_nonneg.mpr hpow
  have hub :
      clipSample (gainLinear * ((s : ℚ) / fullScale seg.sample_width)) *
        (fullScale seg.sample_width - 1) ≤ fullScale seg.sample_width - 1 :=
    mul_le_of_le_one_left hmQ hc2
  have hlb :
      -(fullScale seg.sample_width - 1) ≤
        clipSample (gainLinear * ((s : ℚ) / fullScale seg.sample_width)) *
          (fullScale seg.sample_width - 1) := by
    have := mul_le_mul_of_nonneg_right hc1 hmQ
    linarith
  have hbounds :=
    truncToZero_bounds
      (clipSample (gainLinear * ((s : ℚ) / fullScale seg.sample_width)) *
        (fullScale seg.sample_width - 1))
      (2 ^ K - 1) (by omega)
      (by rw [hcast]; exact hlb) (by rw [hcast]; exact hub)
  omega

/-- C5 witness: a 16-bit buffer with a sample at full scale and gain 2. -/
theorem normalize_audio_output_in_range_witness :
    (∀ x : ℚ, -1 ≤ clipSample x ∧ clipSample x ≤ 1) ∧
    ∀ z ∈ (normalize_audio ⟨[32767, -32768, 100], 2, 44100, 1⟩ 2).samples,
      -(2 ^ (8 * (AudioSegment.mk [32767, -32768, 100] 2 44100 1).sample_width
            - 1)) ≤ z ∧
        z ≤ 2 ^ (8 * (AudioSegment.mk [32767, -32768, 100] 2 44100 1).sample_width
            - 1) - 1 :=
  normalize_audio_output_in_range ⟨[32767, -32768, 100], 2, 44100, 1⟩ 2 rfl

/-- C10: for a supported sample width, the segment `normalize_audio`
rebuilds has the same frame rate, sample width and channel count as the
input segment. -/
theorem normalize_audio_preserves_format (seg : AudioSegment)
    (gainLinear : ℚ) (hw : supportedWidth seg.sample_width = true) :
    (normalize_audio seg gainLinear).frame_rate = seg.frame_rate ∧
    (normalize_audio seg gainLinear).sample_width = seg.sample_width ∧
    (normalize_audio seg gainLinear).channels = seg.channels := by
  simp [normalize_audio, audiosegment_to_numpy, hw]

/-- C10 witness: a concrete stereo 16-bit buffer. -/
theorem normalize_audio_preserves_format_witness :
    (normalize_audio ⟨[1, 2, 3, 4], 2, 48000, 2⟩ (3 / 2)).frame_rate =
      (AudioSegment.mk [1, 2, 3, 4] 2 48000 2).frame_rate ∧
    (normalize_audio ⟨[1, 2, 3, 4], 2, 48000, 2⟩ (3 / 2)).sample_width =
      (AudioSegment.mk [1, 2, 3, 4] 2 48000 2).sample_width ∧
    (normalize_audio ⟨[1, 2, 3, 4], 2, 48000, 2⟩ (3 / 2)).channels =
      (AudioSegment.mk [1, 2, 3, 4] 2 48000 2).channels :=
  normalize_audio_preserves_format ⟨[1, 2, 3, 4], 2, 48000, 2⟩ (3 / 2) rfl

/-! ## Claims about the batch orchestrator -/

/-- A decode attempt recorded by the loop body for file `i` is for file `i`
itself. -/
lemma processFile_decodeTry (env : RunEnv) (i j : ℕ)
    (h : Event.decodeTry j ∈ (processFile env i).2) : j = i := by
  unfold processFile at h
  split at h
  · split at h <;> simp at h
  · split at h <;> simp at h <;> exact h

/-- A decode attempt in the loop's trace belongs to one of the iterated
files. -/
lemma runLoop_decodeTry (env : RunEnv) (idxs : List ℕ) (j : ℕ)
    (h : Event.decodeTry j ∈ (runLoop env idxs).2) : j ∈ idxs := by
  induction idxs with
  | nil => simp [runLoop] at h
  | cons i rest ih =>
    cases hf : env.stopFlag i with
    | true => simp [runLoop, hf] at h
    | false =>
      simp only [runLoop, hf, Bool.false_eq_true, if_false] at h
      rcases List.mem_append.mp h with h1 | h2
      · exact List.mem_cons.mpr (Or.inl (processFile_decodeTry env i j h1))
      · exact List.mem_cons.mpr (Or.inr (ih h2))

/-- C6: when the output path of file `i` already exists, the batch loop
never decodes it: its outcome is `SkippedExisting` when the metadata is
complete and `SkippedMetadataCopied` otherwise, the loop continues with
the remaining files, and no decode attempt for `i` appears in the whole
trace. -/
theorem run_skips_existing_output (env : RunEnv) (i : ℕ) (rest : List ℕ)
    (hstop : env.stopFlag i = false) (hex : env.outputExists i = true)
    (hni : i ∉ rest) :
    (runLoop env (i :: rest)).1 =
      (if env.metadataComplete i then FileOutcome.SkippedExisting
        else FileOutcome.SkippedMetadataCopied) :: (runLoop env rest).1 ∧
    Event.decodeTry i ∉ (runLoop env (i :: rest)).2 := by
  constructor
  · cases hm : env.metadataComplete i <;>
      simp [runLoop, hstop, processFile, hex, hm]
  · intro hmem
    simp only [runLoop, hstop, Bool.false_eq_true, if_false] at hmem
    rcases List.mem_append.mp hmem with h1 | h2
    · unfold processFile at h1
      rw [hex] at h1
      simp only [if_true] at h1
      split at h1 <;> simp at h1
    · exact hni (runLoop_decodeTry env rest i h2)

/-- C6 witness: one existing output with complete metadata, followed by a
second file. -/
theorem run_skips_existing_output_witness :
    (runLoop ⟨fun j => j == 0, fun _ => true,
        fun _ => some ⟨[3], 2, 44100, 1⟩, fun _ => 1, fun _ => false⟩
        (0 :: [1])).1 =
      (if RunEnv.metadataComplete ⟨fun j => j == 0, fun _ => true,
          fun _ => some ⟨[3], 2, 44100, 1⟩, fun _ => 1, fun _ => false⟩ 0 then
        FileOutcome.SkippedExisting
      else FileOutcome.SkippedMetadataCopied) ::
        (runLoop ⟨fun j => j == 0, fun _ => true,
          fun _ => some ⟨[3], 2, 44100, 1⟩, fun _ => 1, fun _ => false⟩
          [1]).1 ∧
    Event.decodeTry 0 ∉
      (runLoop ⟨fun j => j == 0, fun _ => true,
        fun _ => some ⟨[3], 2, 44100, 1⟩, fun _ => 1, fun _ => false⟩
        (0 :: [1])).2 :=
  run_skips_existing_output
    ⟨fun j => j == 0, fun _ => true, fun _ => some ⟨[3], 2, 44100, 1⟩,
      fun _ => 1, fun _ => false⟩
    0 [1] rfl rfl (by norm_num)

/-- The loop processes the longest prefix of files on which the stop flag
was observed unset, completely and in order, and nothing afterwards. -/
lemma runLoop_split (env : RunEnv) (idxs : List ℕ) :
    ∃ p s, idxs = p ++ s ∧
      (∀ j ∈ p, env.stopFlag j = false) ∧
      (∀ j, s.head? = some j → env.stopFlag j = true) ∧
      runLoop env idxs =
        (p.map (fun i => (processFile env i).1),
          (p.map (fun i => (processFile env i).2)).flatten) := by
  induction idxs with
  | nil => exact ⟨[], [], rfl, by simp, by simp, by simp [runLoop]⟩
  | cons i rest ih =>
    cases hf : env.stopFlag i with
    | true =>
      refine ⟨[], i :: rest, rfl, by simp, ?_, by simp [runLoop, hf]⟩
      intro j hj
      simp only [List.head?_cons, Option.some.injEq] at hj
      rw [← hj]
      exact hf
    | false =>
      obtain ⟨p, s, hsplit, hp, hs, hrun⟩ := ih
      refine ⟨i :: p, s, by rw [hsplit]; rfl, ?_, hs, ?_⟩
      · intro j hj
        rcases List.mem_cons.mp hj with rfl | hj
        · exact hf
        · exact hp j hj
      · simp [runLoop, hf, hrun]

/-- C8: the stop flag is observed only at file boundaries.  The loop body
for one file does not read the flag at all (so a file in progress always
runs to completion regardless of when `stop()` is called), and a whole run
over `n` files produces exactly the complete outcomes and the complete
traces of the files before the first check that saw the flag set — no
later file is started. -/
theorem run_cancellation_file_granular (env : RunEnv) (n : ℕ) :
    (∀ (f : ℕ → Bool) (i : ℕ),
      processFile { env with stopFlag := f } i = processFile env i) ∧
    ∃ k, k ≤ n ∧
      (∀ j < k, env.stopFlag j = false) ∧
      (k < n → env.stopFlag k = true) ∧
      runWorker env n =
        ((List.range k).map (fun i => (processFile env i).1),
          ((List.range k).map (fun i => (processFile env i).2)).flatten) := by
  refine ⟨fun f i => rfl, ?_⟩
  obtain ⟨p, s, hsplit, hp, hs, hrun⟩ := runLoop_split env (List.range n)
  have hlen : p.length ≤ n := by
    have := congrArg List.length hsplit
    simp [List.length_append] at this
    omega
  have hpeq : p = List.range p.length := by
    have h1 : p = (List.range n).take p.length := by
      rw [hsplit, List.take_left]
    conv_lhs => rw [h1]
    rw [List.take_range, min_eq_left hlen]
  refine ⟨p.length, hlen, ?_, ?_, ?_⟩
  · intro j hj
    exact hp j (by rw [hpeq]; exact List.mem_range.mpr hj)
  · intro hkn
    apply hs
    have hdrop : s = (List.range n).drop p.length := by
      rw [hsplit, List.drop_left]
    rw [hdrop, List.head?_drop]
    exact List.getElem?_range hkn
  · rw [runWorker, hrun, ← hpeq]

/-! ## Claim about configuration validation -/

/-- C9: any configuration whose input folder or output folder is not an
existing directory, or whose target loudness lies outside `[-60, 0]`, is
rejected by `start_normalization` before a worker is created: the result
is `rejected`, never `started`. -/
theorem start_normalization_rejects_bad_config (isdir : String → Bool)
    (input_folder output_folder : String) (target_parsed : Option ℚ)
    (hbad : isdir input_folder = false ∨ isdir output_folder = false ∨
      ∃ t, target_parsed = some t ∧ (t < -60 ∨ 0 < t)) :
    start_normalization isdir input_folder output_folder target_parsed =
      StartResult.rejected := by
  unfold start_normalization
  rcases hbad with h | h | ⟨t, ht, hrange⟩
  · rw [if_pos (Or.inr (by simp [h]))]
  · by_cases h1 : input_folder = "" ∨ ¬ isdir input_folder
    · rw [if_pos h1]
    · rw [if_neg h1, if_pos (Or.inr (by simp [h]))]
  · by_cases h1 : input_folder = "" ∨ ¬ isdir input_folder
    · rw [if_pos h1]
    · rw [if_neg h1]
      by_cases h2 : output_folder = "" ∨ ¬ isdir output_folder
      · rw [if_pos h2]
      · rw [if_neg h2, ht]
        have : ¬ (-60 ≤ t ∧ t ≤ 0) := by
          rcases hrange with h3 | h3
          · exact fun hc => absurd hc.1 (not_le.mpr h3)
          · exact fun hc => absurd hc.2 (not_le.mpr h3)
        simp only [this, if_pos, not_false_eq_true, if_true]

/-- C9 witness: an out-of-range target (`-61` LUFS) with valid folders is
rejected. -/
theorem start_normalization_rejects_bad_config_witness :
    start_normalization (fun _ => true) "in" "out" (some (-61)) =
      StartResult.rejected :=
  start_normalization_rejects_bad_config (fun _ => true) "in" "out"
    (some (-61)) (Or.inr (Or.inr ⟨-61, rfl, Or.inl (by norm_num)⟩))

end AudioToolkit
